import Mathlib

/-!
# Verification of the vc3-info-service document/entity store

A shallow embedding of `vc3infoservice/infoservice.py` (class `InfoHandler`):
the JSON-like value model, the recursive merge algorithm (`InfoHandler.merge`),
the entity operations (`storeentity`, `mergeentity`/`entitymerge`, `getentity`,
`deleteentity`), the document merge (`mergedocument`), and the pairing
consumption logic (`getpairing`), together with theorems settling the spec's
claims about them.

Conventions of the embedding:
* Python primitives that `json.loads` can produce are modelled by `PyVal`:
  `None`, `bool`, numbers (`int`/`long`; numbers are modelled as `Int` — the
  store only tests their type and compares them for equality, it never does
  arithmetic on them), `str`/`unicode`, `list`, `dict`.  Python dictionaries
  are modelled as association lists in iteration order (`PyDict`); Python
  values that are *not* JSON-representable (tuples, arbitrary objects) are
  modelled by the `other` constructor so that the `NOT IMPLEMENTED` branch of
  `InfoHandler.merge` is reachable.
* Each handler operation is a function from the persisted store and its
  arguments to the resulting store together with an `OpOutcome`: normal
  return, an HTTP-405 client error (`EntityExists` / `EntityMissing`), the
  404 pairing retry answer, or an uncaught Python exception (`crash`).
* JSON (de)serialisation at the HTTP boundary (`json.loads` / `json.dumps`)
  is abstracted away: operations receive and return the parsed values.
-/

set_option autoImplicit false

/-- A Python value as produced by `json.loads`, plus `other` for
non-JSON Python objects (tuples, class instances) which
`InfoHandler.merge` refuses with its `NOT IMPLEMENTED` exception. -/
inductive PyVal where
  | null
  | bool (b : Bool)
  | int (n : Int)
  | str (s : String)
  | list (xs : List PyVal)
  | obj (fields : List (String × PyVal))
  | other (tag : String)

/-- A Python dict, as an association list in iteration order. -/
abbrev PyDict := List (String × PyVal)

mutual
/-- Structural equality of Python values (Python `==` restricted to
values of matching type, which is all the store ever compares). -/
def PyVal.beq : PyVal → PyVal → Bool
  | .null, .null => true
  | .bool a, .bool b => a == b
  | .int a, .int b => a == b
  | .str a, .str b => a == b
  | .list xs, .list ys => PyVal.beqL xs ys
  | .obj xs, .obj ys => PyVal.beqF xs ys
  | .other a, .other b => a == b
  | _, _ => false

/-- Elementwise equality of Python lists. -/
def PyVal.beqL : List PyVal → List PyVal → Bool
  | [], [] => true
  | x :: xs, y :: ys => PyVal.beq x y && PyVal.beqL xs ys
  | _, _ => false

/-- Pairwise equality of dict entry lists. -/
def PyVal.beqF : List (String × PyVal) → List (String × PyVal) → Bool
  | [], [] => true
  | (k, v) :: xs, (l, w) :: ys => k == l && PyVal.beq v w && PyVal.beqF xs ys
  | _, _ => false
end

theorem PyVal.beqL_iff (xs ys : List PyVal)
    (ih : ∀ x ∈ xs, ∀ b : PyVal, PyVal.beq x b = true ↔ x = b) :
    PyVal.beqL xs ys = true ↔ xs = ys := by
  induction xs generalizing ys with
  | nil => cases ys <;> simp [PyVal.beqL]
  | cons x xs ihl =>
    cases ys with
    | nil => simp [PyVal.beqL]
    | cons y ys =>
      simp only [PyVal.beqL, Bool.and_eq_true, List.cons.injEq]
      rw [ih x (by simp) y, ihl ys (fun a ha b => ih a (by simp [ha]) b)]

theorem PyVal.beqF_iff (xs ys : List (String × PyVal))
    (ih : ∀ p ∈ xs, ∀ b : PyVal, PyVal.beq p.2 b = true ↔ p.2 = b) :
    PyVal.beqF xs ys = true ↔ xs = ys := by
  induction xs generalizing ys with
  | nil => cases ys <;> simp [PyVal.beqF]
  | cons x xs ihl =>
    obtain ⟨k, v⟩ := x
    cases ys with
    | nil => simp [PyVal.beqF]
    | cons y ys =>
      obtain ⟨l, w⟩ := y
      simp only [PyVal.beqF, Bool.and_eq_true, List.cons.injEq, Prod.mk.injEq,
        beq_iff_eq]
      rw [ih (k, v) (by simp) w, ihl ys (fun a ha b => ih a (by simp [ha]) b)]

theorem PyVal.sizeOf_lt_of_mem_list {x : PyVal} {xs : List PyVal}
    (h : x ∈ xs) : sizeOf x < 1 + sizeOf xs := by
  have := List.sizeOf_lt_of_mem h
  omega

theorem PyVal.sizeOf_lt_of_mem_obj {p : String × PyVal}
    {fs : List (String × PyVal)} (h : p ∈ fs) :
    sizeOf p.2 < 1 + sizeOf fs := by
  have h1 := List.sizeOf_lt_of_mem h
  obtain ⟨k, v⟩ := p
  simp only [Prod.mk.sizeOf_spec] at h1
  dsimp only
  omega

theorem PyVal.beq_iff_eq : ∀ (a b : PyVal), PyVal.beq a b = true ↔ a = b
  | .null, b => by cases b <;> simp [PyVal.beq]
  | .bool a, b => by cases b <;> simp [PyVal.beq]
  | .int a, b => by cases b <;> simp [PyVal.beq]
  | .str a, b => by cases b <;> simp [PyVal.beq]
  | .other a, b => by cases b <;> simp [PyVal.beq]
  | .list xs, b => by
    cases b <;> simp only [PyVal.beq, PyVal.list.injEq] <;> try simp
    exact PyVal.beqL_iff xs _ (fun x hx b =>
      have : sizeOf x < 1 + sizeOf xs := PyVal.sizeOf_lt_of_mem_list hx
      PyVal.beq_iff_eq x b)
  | .obj fs, b => by
    cases b <;> simp only [PyVal.beq, PyVal.obj.injEq] <;> try simp
    exact PyVal.beqF_iff fs _ (fun p hp b =>
      have : sizeOf p.2 < 1 + sizeOf fs := PyVal.sizeOf_lt_of_mem_obj hp
      PyVal.beq_iff_eq p.2 b)
termination_by a => sizeOf a

instance : DecidableEq PyVal := fun a b =>
  decidable_of_iff (PyVal.beq a b = true) (PyVal.beq_iff_eq a b)

/-- Python `d[a]` on a dict: the value bound to `a`, if present. -/
def dlookup : PyDict → String → Option PyVal
  | [], _ => none
  | (k, v) :: rest, a => if k = a then some v else dlookup rest a

/-- Python `d[a] = v` on a dict: rebind `a` in place, else append a new
binding (new keys go at the end of the iteration order). -/
def dset : PyDict → String → PyVal → PyDict
  | [], a, v => [(a, v)]
  | (k, w) :: rest, a, v =>
    if k = a then (k, v) :: rest else (k, w) :: dset rest a v

/-- Python `d.pop(a)` on a dict: remove the binding of `a`, if present. -/
def derase : PyDict → String → PyDict
  | [], _ => []
  | (k, w) :: rest, a => if k = a then rest else (k, w) :: derase rest a

/-- Python `d.keys()`: the keys in iteration order. -/
def dkeys (d : PyDict) : List String := d.map Prod.fst

/-- The failure of `InfoHandler.merge`: the `NOT IMPLEMENTED` exception it
raises when `dest` is neither a primitive, a list, nor a dict (the
spec's `MergeTypeError`). -/
inductive MergeErr where
  | notImplemented
deriving DecidableEq

instance {ε α : Type} [DecidableEq ε] [DecidableEq α] :
    DecidableEq (Except ε α) := fun a b =>
  match a, b with
  | .ok x, .ok y =>
    if h : x = y then isTrue (by rw [h]) else isFalse (by simp [h])
  | .error x, .error y =>
    if h : x = y then isTrue (by rw [h]) else isFalse (by simp [h])
  | .ok _, .error _ => isFalse (by simp)
  | .error _, .ok _ => isFalse (by simp)

/-- The list branch of `InfoHandler.merge` (lines 384-391):
`for item in src: if item not in dest: dest.append(item)`. -/
def mergeList (s d : List PyVal) : List PyVal :=
  s.foldl (fun acc item => if item ∈ acc then acc else acc ++ [item]) d

mutual
/-- `InfoHandler.merge` (infoservice.py lines 366-412).  Python's
`isinstance(dest, int)` is true for booleans, so `None`, `bool`, `int`,
`long`, `float`, `str` and `unicode` all take the primitive branch
(`dest = src`).  The final `else` raises the `NOT IMPLEMENTED` exception.
The `except TypeError` re-raise cannot trigger on these values (no
operation in the body raises `TypeError`), so it is not modelled. -/
def merge : PyVal → PyVal → Except MergeErr PyVal
  | src, .null => .ok src
  | src, .bool _ => .ok src
  | src, .int _ => .ok src
  | src, .str _ => .ok src
  | src, .list d =>
    match src with
    | .list s => .ok (.list (mergeList s d))
    | _ => .ok (.list d)        -- "Refusing to add non-list ... to list"
  | src, .obj d =>
    match src with
    | .obj s =>
      match mergeObj s d with
      | .ok r => .ok (.obj r)
      | .error e => .error e
    | .null => .ok .null        -- elif src is None: dest = None
    | _ => .ok (.obj d)         -- "Cannot merge non-dict ... into dict"
  | _, .other _ => .error .notImplemented

/-- The dict branch of `InfoHandler.merge` (lines 396-403):
`for key in src: dest[key] = merge(src[key], dest[key]) if key in dest
else src[key]`, processing `src`'s entries in iteration order. -/
def mergeObj : List (String × PyVal) → PyDict → Except MergeErr PyDict
  | [], d => .ok d
  | (k, v) :: rest, d =>
    match dlookup d k with
    | some dv =>
      match merge v dv with
      | .ok m => mergeObj rest (dset d k m)
      | .error e => .error e
    | none => mergeObj rest (dset d k v)
end

/-- The persisted key→document store.
Modelled from the spec: the persistence plugin (`vc3infoservice/plugins/
persist`, not part of the sources here) is the external PersistenceBackend
of spec §4.1, raw key→document storage behind a global lock.  Documents are
kept as parsed Python values. -/
abbrev Store := List (String × PyVal)

/-- Modelled from the spec: backend `get(key) -> Document` — "never fails
for an unknown key; returns an empty mapping" (spec §4.1).  This is
`self.persist.getdocument(key)` in the source. -/
def getdocument (store : Store) (key : String) : PyVal :=
  (dlookup store key).getD (.obj [])

/-- Modelled from the spec: backend `put(key, Document)` — full overwrite
(spec §4.1).  This is `self.persist.storedocument(key, doc)` in the
source. -/
def storedocument (store : Store) (key : String) (doc : PyVal) : Store :=
  dset store key doc

/-- An uncaught Python exception escaping a handler. -/
inductive PyErr where
  | nameError        -- reference to an unbound name (`pd` in mergedocument)
  | keyError         -- `d[k]` on a dict without key `k`
  | typeError        -- indexing / item assignment on a non-dict value
  | attributeError   -- calling a missing method (`.keys()` on a non-dict)
  | mergeFailed      -- the `NOT IMPLEMENTED` exception of `InfoHandler.merge`
deriving DecidableEq

/-- Outcome of one `InfoHandler` operation, as observed by the HTTP layer. -/
inductive OpOutcome where
  | ok                            -- completed, nothing returned
  | retval (v : PyVal)            -- value returned (`json.dumps` abstracted)
  | entityExists (name : String)  -- status 405, "Attempt to create (POST) already-existing Entity. Name: ..."
  | entityMissing (name : String) -- status 405, non-existent entity messages
  | notready                      -- Status 404, "Invalid pairing code or not satisfied yet. Try in 30 seconds."
  | crash (e : PyErr)             -- uncaught exception propagates to the caller
deriving DecidableEq

/-- `InfoHandler.storeentity` (lines 72-103): under the lock, load the
current document; if `entityname` is already bound, answer 405 without
touching the store (`except KeyError: pass` continues otherwise); else
merge the name-indexed entity dict into the document and persist.
A non-dict current document makes `currentdoc[entityname]` raise
`TypeError`, which the `except KeyError` does not catch. -/
def storeentity (store : Store) (key entityname : String) (entitydict : PyVal) :
    Store × OpOutcome :=
  match getdocument store key with
  | .obj d =>
    match dlookup d entityname with
    | some _ => (store, .entityExists entityname)
    | none =>
      match merge entitydict (.obj d) with
      | .ok newdoc => (storedocument store key newdoc, .ok)
      | .error _ => (store, .crash .mergeFailed)
  | _ => (store, .crash .typeError)

/-- `InfoHandler.entitymerge` (lines 132-150): unconditionally replace the
attributes named in `src` inside `dest`, at attribute level.  `dest[a] = v`
on a non-dict `dest` raises `TypeError` (never reached when `src` is
empty, because the loop body never runs). -/
def entitymerge (src : List (String × PyVal)) (dest : PyVal) :
    Except PyErr PyVal :=
  match src with
  | [] => .ok dest
  | (a, v) :: rest =>
    match dest with
    | .obj es => entitymerge rest (.obj (dset es a v))
    | _ => .error .typeError

/-- `InfoHandler.mergeentity` (lines 105-130): under the lock, load the
document; `currentdoc[entityname]` and `entitydict[entityname]` both raise
`KeyError` when the name is absent, and the handler answers 405
("Attempt to update (PUT) non-existent Entity") in either case; otherwise
`entitymerge` updates the entity in place and the document is persisted.
`newentity.keys()` on a non-dict raises `AttributeError`; indexing a
non-dict raises `TypeError`; neither is caught by `except KeyError`. -/
def mergeentity (store : Store) (key entityname : String) (entitydict : PyVal) :
    Store × OpOutcome :=
  match getdocument store key with
  | .obj d =>
    match dlookup d entityname with
    | none => (store, .entityMissing entityname)
    | some existingentity =>
      match entitydict with
      | .obj frag =>
        match dlookup frag entityname with
        | none => (store, .entityMissing entityname)
        | some newentity =>
          match newentity with
          | .obj ns =>
            match entitymerge ns existingentity with
            | .ok newexisting =>
              (storedocument store key (.obj (dset d entityname newexisting)), .ok)
            | .error e => (store, .crash e)
          | _ => (store, .crash .attributeError)
      | _ => (store, .crash .typeError)
  | _ => (store, .crash .typeError)

/-- `InfoHandler.getentity` (lines 152-171): read-only; `KeyError` on an
absent name is answered with 405, otherwise the entity is returned
(serialised with `json.dumps`, abstracted here as the value itself). -/
def getentity (store : Store) (key entityname : String) : Store × OpOutcome :=
  match getdocument store key with
  | .obj d =>
    match dlookup d entityname with
    | some e => (store, .retval e)
    | none => (store, .entityMissing entityname)
  | _ => (store, .crash .typeError)

/-- `InfoHandler.deleteentity` (lines 174-189): under the lock,
`doc.pop(entityname)` raises `KeyError` when absent (405 answer, nothing
stored); otherwise the shrunk document is persisted. -/
def deleteentity (store : Store) (key entityname : String) : Store × OpOutcome :=
  match getdocument store key with
  | .obj d =>
    match dlookup d entityname with
    | some _ => (storedocument store key (.obj (derase d entityname)), .ok)
    | none => (store, .entityMissing entityname)
  | _ => (store, .crash .typeError)

/-- `InfoHandler.mergedocument` (lines 208-229), as written.  The first
locked block loads the current document and then evaluates
`self.persist.storedocument(key, pd)`; the assignment `pd =
json.loads(doc)` is commented out, so the name `pd` is unbound and the
call raises `NameError` before any write.  The `finally` releases the
lock, the exception propagates, and the second locked block (the one that
actually merges) is never reached. -/
def mergedocument (store : Store) (key : String) (doc : PyVal) :
    Store × OpOutcome :=
  let _dcurrent := getdocument store key
  (store, .crash .nameError)

/-- The second locked block of `InfoHandler.mergedocument` (lines 219-229),
the single-pass merge-and-persist the spec describes as the intended
behavior: load the current document, merge the fragment into it with
`InfoHandler.merge`, and persist the result only if the merge returned. -/
def mergedocumentIntended (store : Store) (key : String) (doc : PyVal) :
    Store × OpOutcome :=
  let dcurrent := getdocument store key
  match merge doc dcurrent with
  | .ok newdoc => (storedocument store key newdoc, .ok)
  | .error _ => (store, .crash .mergeFailed)

/-- The scanning loop of `InfoHandler.getpairing` (lines 431-445) —
dead code in the program as written, since `getpairing` crashes before
reaching it (see below); embedded here for the intended behavior
(`getpairingIntended`).  `for p in pd[key].keys():` walks a snapshot of
the keys, re-reading the (possibly already shrunk) entry dict `d` each
iteration.  On a match with non-null `cert` the entry is snapshot into
`prd`, popped from `d`, and the whole document re-stored immediately
(the `self._storepythondocument(key, pd)` call at line 443, modelled as
the backend put its commented-out body at lines 354-356 performs); the
loop then continues.  `entry['pairingcode']` / `entry['cert']` raise
`KeyError` when the attribute is absent (caught further out) and
`TypeError` when the entry is not a dict (not caught).  `pdFields` is
the binding list of the whole document `pd`, needed to rebuild it for
the re-store. -/
def getpairingScan (key code : String) (pdFields : PyDict) :
    List String → Store → PyDict → Option PyVal →
    Store × Except PyErr (Option PyVal)
  | [], store, _, prd => (store, .ok prd)
  | p :: ps, store, d, prd =>
    match dlookup d p with
    | none => (store, .error .keyError)
    | some entry =>
      match entry with
      | .obj efields =>
        match dlookup efields "pairingcode" with
        | none => (store, .error .keyError)
        | some pc =>
          if pc = .str code then
            match dlookup efields "cert" with
            | none => (store, .error .keyError)
            | some cert =>
              if cert = .null then
                getpairingScan key code pdFields ps store d prd
              else
                getpairingScan key code pdFields ps
                  (storedocument store key
                    (.obj (dset pdFields key (.obj (derase d p)))))
                  (derase d p) (some entry)
          else
            getpairingScan key code pdFields ps store d prd
      | _ => (store, .error .typeError)

/-- `InfoHandler.getpairing` (lines 419-453), as written.  Its first
statement is `pd = self._getpythondocument(key)` (line 427), but that
method — like `_storepythondocument`, called at line 443 — exists only
as comments in the source (lines 346-356): `InfoHandler` subclasses
only `object`, and nothing else attaches these attributes (the plugin
manager sets only `self.persist`).  So every call raises
`AttributeError` at line 427, before the `try` at line 429 (whose
`except KeyError` could not catch it anyway); the scan below is dead
code, the store is never read or written, and no pairing is ever
delivered. -/
def getpairing (store : Store) (key pairingcode : String) :
    Store × OpOutcome :=
  (store, .crash .attributeError)

/-- The scan-and-consume logic of `InfoHandler.getpairing`
(lines 427-453) as it would execute if the commented-out helpers
existed — the behavior the method's docstring and spec §4.5 describe,
unreachable in the program as written (see `getpairing`).
`_getpythondocument` / `_storepythondocument` are taken to be the bare
backend `get`/`put`, exactly what their commented bodies
(lines 346-356) and spec §4.1 say.  The entries scanned are those of
`pd[key]` — the sub-mapping of the pairing document named by the key
itself; a missing sub-mapping, or any `KeyError` from the scan, is
answered with the Status-404 retry message, as is a scan that found no
entry with the given code and a non-null cert.  `pd[key]` on a non-dict
document raises `TypeError` and `pd[key].keys()` on a non-dict entry
collection raises `AttributeError`, neither caught. -/
def getpairingIntended (store : Store) (key pairingcode : String) :
    Store × OpOutcome :=
  match getdocument store key with
  | .obj pdFields =>
    match dlookup pdFields key with
    | none => (store, .notready)
    | some sub =>
      match sub with
      | .obj entries =>
        match getpairingScan key pairingcode pdFields (dkeys entries)
            store entries none with
        | (store1, .ok (some prd)) => (store1, .retval prd)
        | (store1, .ok none) => (store1, .notready)
        | (store1, .error .keyError) => (store1, .notready)
        | (store1, .error e) => (store1, .crash e)
      | _ => (store, .crash .attributeError)
  | _ => (store, .crash .typeError)

/-- Values the merge algorithm is specified over: JSON-representable
(no `other` anywhere) with genuine dicts (no duplicated keys at any
level) — exactly what `json.loads` can hand the handlers. -/
def supported : PyVal → Prop
  | .null => True
  | .bool _ => True
  | .int _ => True
  | .str _ => True
  | .list xs => ∀ x ∈ xs, supported x
  | .obj fs => (fs.map Prod.fst).Nodup ∧ ∀ p ∈ fs, supported p.2
  | .other _ => False
termination_by v => sizeOf v
decreasing_by
  · simp only [PyVal.list.sizeOf_spec]
    exact PyVal.sizeOf_lt_of_mem_list (by assumption)
  · simp only [PyVal.obj.sizeOf_spec]
    exact PyVal.sizeOf_lt_of_mem_obj (by assumption)

/-! ## Association-list lemmas -/

theorem dlookup_dset_self (d : PyDict) (k : String) (v : PyVal) :
    dlookup (dset d k v) k = some v := by
  induction d with
  | nil => simp [dset, dlookup]
  | cons p rest ih =>
    obtain ⟨a, w⟩ := p
    by_cases h : a = k <;> simp [dset, dlookup, h, ih]

theorem dlookup_dset_of_ne (d : PyDict) (k a : String) (v : PyVal)
    (h : k ≠ a) : dlookup (dset d k v) a = dlookup d a := by
  induction d with
  | nil => simp [dset, dlookup, h]
  | cons p rest ih =>
    obtain ⟨b, w⟩ := p
    by_cases hb : b = k
    · subst hb; simp [dset, dlookup, h]
    · simp [dset, dlookup, hb, ih]

theorem dlookup_derase_of_ne (d : PyDict) (k a : String) (h : k ≠ a) :
    dlookup (derase d k) a = dlookup d a := by
  induction d with
  | nil => simp [derase]
  | cons p rest ih =>
    obtain ⟨b, w⟩ := p
    by_cases hb : b = k
    · subst hb; simp [derase, dlookup, h]
    · simp [derase, dlookup, hb, ih]

theorem dlookup_eq_none_iff (d : PyDict) (k : String) :
    dlookup d k = none ↔ k ∉ dkeys d := by
  induction d with
  | nil => simp [dlookup, dkeys]
  | cons p rest ih =>
    obtain ⟨b, w⟩ := p
    by_cases hb : b = k
    · subst hb; simp [dlookup, dkeys]
    · rw [dlookup, if_neg hb, ih]
      simp only [dkeys, List.map_cons, List.mem_cons, not_or]
      have hkb : ¬ k = b := fun h => hb h.symm
      tauto

theorem dlookup_isSome_iff (d : PyDict) (k : String) :
    (dlookup d k).isSome = true ↔ k ∈ dkeys d := by
  rcases h : dlookup d k with _ | v
  · rw [dlookup_eq_none_iff] at h; simp [h]
  · simp only [Option.isSome_some, true_iff]
    by_contra hk
    rw [← dlookup_eq_none_iff] at hk
    rw [h] at hk
    exact Option.noConfusion hk

theorem dlookup_mem {d : PyDict} {k : String} {v : PyVal}
    (h : dlookup d k = some v) : (k, v) ∈ d := by
  induction d with
  | nil => simp [dlookup] at h
  | cons p rest ih =>
    obtain ⟨b, w⟩ := p
    rw [dlookup] at h
    by_cases hb : b = k
    · rw [if_pos hb] at h
      obtain rfl := Option.some.inj h
      subst hb
      exact List.mem_cons_self _ _
    · rw [if_neg hb] at h
      exact List.mem_cons_of_mem _ (ih h)

theorem mem_dlookup_of_nodup {d : PyDict} {k : String} {v : PyVal}
    (hd : (dkeys d).Nodup) (h : (k, v) ∈ d) : dlookup d k = some v := by
  induction d with
  | nil => simp at h
  | cons p rest ih =>
    obtain ⟨b, w⟩ := p
    simp only [dkeys, List.map_cons, List.nodup_cons] at hd
    rcases List.mem_cons.mp h with h1 | h1
    · obtain ⟨rfl, rfl⟩ := Prod.mk.injEq .. ▸ h1
      simp [dlookup]
    · have hbk : b ≠ k := by
        rintro rfl
        exact hd.1 (List.mem_map.mpr ⟨(b, v), h1, rfl⟩)
      simp only [dlookup, if_neg hbk]
      exact ih hd.2 h1

theorem dkeys_dset_mem (d : PyDict) (k : String) (v : PyVal)
    (h : k ∈ dkeys d) : dkeys (dset d k v) = dkeys d := by
  induction d with
  | nil => simp [dkeys] at h
  | cons p rest ih =>
    obtain ⟨b, w⟩ := p
    by_cases hb : b = k
    · simp [dset, dkeys, hb]
    · have h1 : k ∈ dkeys rest := by
        simp only [dkeys, List.map_cons, List.mem_cons] at h
        rcases h with h2 | h2
        · exact absurd h2.symm hb
        · exact h2
      simp only [dset, if_neg hb, dkeys, List.map_cons]
      exact congrArg (fun l => b :: l) (ih h1)

theorem dset_of_not_mem (d : PyDict) (k : String) (v : PyVal)
    (h : k ∉ dkeys d) : dset d k v = d ++ [(k, v)] := by
  induction d with
  | nil => simp [dset]
  | cons p rest ih =>
    obtain ⟨b, w⟩ := p
    simp only [dkeys, List.map_cons, List.mem_cons, not_or] at h
    have hb : ¬ b = k := fun hh => h.1 hh.symm
    simp only [dset, if_neg hb, List.cons_append]
    exact congrArg (fun l => (b, w) :: l) (ih h.2)

theorem dset_self_of_dlookup {d : PyDict} {k : String} {v : PyVal}
    (h : dlookup d k = some v) : dset d k v = d := by
  induction d with
  | nil => simp [dlookup] at h
  | cons p rest ih =>
    obtain ⟨b, w⟩ := p
    rw [dlookup] at h
    by_cases hb : b = k
    · rw [if_pos hb] at h
      obtain rfl := Option.some.inj h
      simp [dset, hb]
    · rw [if_neg hb] at h
      simp [dset, hb, ih h]

theorem dkeys_derase_subset (d : PyDict) (k : String) :
    ∀ a ∈ dkeys (derase d k), a ∈ dkeys d := by
  induction d with
  | nil => intro a ha; simpa [derase] using ha
  | cons p rest ih =>
    obtain ⟨b, w⟩ := p
    intro a ha
    by_cases hb : b = k
    · simp only [derase, if_pos hb] at ha
      simp only [dkeys, List.map_cons, List.mem_cons]
      exact Or.inr ha
    · simp only [derase, if_neg hb, dkeys, List.map_cons, List.mem_cons]
        at ha ⊢
      rcases ha with h1 | h1
      · exact Or.inl h1
      · exact Or.inr (ih a h1)

theorem not_mem_dkeys_derase {d : PyDict} {k : String}
    (hd : (dkeys d).Nodup) : k ∉ dkeys (derase d k) := by
  induction d with
  | nil => simp [derase, dkeys]
  | cons p rest ih =>
    obtain ⟨b, w⟩ := p
    simp only [dkeys, List.map_cons, List.nodup_cons] at hd
    by_cases hb : b = k
    · subst hb
      simpa [derase, dkeys] using hd.1
    · simp only [derase, if_neg hb, dkeys, List.map_cons, List.mem_cons]
      push_neg
      exact ⟨fun hh => hb hh.symm, ih hd.2⟩

theorem dkeys_nodup_derase {d : PyDict} (k : String)
    (hd : (dkeys d).Nodup) : (dkeys (derase d k)).Nodup := by
  induction d with
  | nil => simp [derase, dkeys]
  | cons p rest ih =>
    obtain ⟨b, w⟩ := p
    simp only [dkeys, List.map_cons, List.nodup_cons] at hd
    by_cases hb : b = k
    · simp only [derase, if_pos hb]
      exact hd.2
    · simp only [derase, if_neg hb, dkeys, List.map_cons, List.nodup_cons]
      exact ⟨fun hmem => hd.1 (dkeys_derase_subset rest k b hmem), ih hd.2⟩

theorem getdocument_storedocument_self (store : Store) (key : String)
    (doc : PyVal) : getdocument (storedocument store key doc) key = doc := by
  simp [getdocument, storedocument, dlookup_dset_self]

/-- Python `isinstance(x, list)`. -/
def PyVal.isList : PyVal → Bool
  | .list _ => true
  | _ => false

/-- Python `isinstance(x, dict)`. -/
def PyVal.isObj : PyVal → Bool
  | .obj _ => true
  | _ => false

/-! ## The merge engine on lists (claim C4) -/

theorem mergeList_nil (d : List PyVal) : mergeList [] d = d := rfl

theorem mergeList_cons (a : PyVal) (s d : List PyVal) :
    mergeList (a :: s) d =
      if a ∈ d then mergeList s d else mergeList s (d ++ [a]) := by
  by_cases h : a ∈ d <;> simp [mergeList, List.foldl_cons, h]

/-- The list merge appends to `dest`, in `src` order, exactly those
elements of `src` not already present, each at most once. -/
theorem mergeList_spec (s d : List PyVal) :
    ∃ t : List PyVal, mergeList s d = d ++ t ∧
      (∀ a, a ∈ t ↔ a ∈ s ∧ a ∉ d) ∧ t.Sublist s ∧ t.Nodup := by
  induction s generalizing d with
  | nil => exact ⟨[], by simp [mergeList_nil]⟩
  | cons a s ih =>
    rw [mergeList_cons]
    by_cases h : a ∈ d
    · obtain ⟨t, h1, h2, h3, h4⟩ := ih d
      refine ⟨t, by simp [h, h1], fun b => ?_, h3.cons _, h4⟩
      rw [h2 b]
      constructor
      · exact fun hb => ⟨List.mem_cons_of_mem _ hb.1, hb.2⟩
      · rintro ⟨hb1, hb2⟩
        rcases List.mem_cons.mp hb1 with rfl | hb1
        · exact absurd h hb2
        · exact ⟨hb1, hb2⟩
    · obtain ⟨t, h1, h2, h3, h4⟩ := ih (d ++ [a])
      rw [if_neg h, h1, List.append_assoc]
      refine ⟨a :: t, rfl, fun b => ?_, h3.cons₂ _, ?_⟩
      · simp only [List.mem_cons]
        constructor
        · rintro (rfl | hb)
          · exact ⟨Or.inl rfl, h⟩
          · have := (h2 b).mp hb
            simp only [List.mem_append, List.mem_singleton, not_or] at this
            exact ⟨Or.inr this.1, this.2.1⟩
        · rintro ⟨rfl | hb1, hb2⟩
          · exact Or.inl rfl
          · by_cases hba : b = a
            · exact Or.inl hba
            · refine Or.inr ((h2 b).mpr ⟨hb1, ?_⟩)
              simp only [List.mem_append, List.mem_singleton, not_or]
              exact ⟨hb2, hba⟩
      · refine List.nodup_cons.mpr ⟨fun ha => ?_, h4⟩
        have := (h2 a).mp ha
        simp at this

/-- **C4.** Merging a list `src` into a list `dest` keeps `dest`'s
elements in their order and appends exactly the elements of `src` not
already present (each at most once, in `src`'s order); the spec's own
example `merge([1,2],[2,3]) = [1,2,3]` holds; and merging any non-list
`src` into a list `dest` leaves `dest` unchanged. -/
theorem merge_list_behavior :
    (∀ s d : List PyVal, ∃ t : List PyVal,
        merge (.list s) (.list d) = .ok (.list (d ++ t)) ∧
        (∀ a, a ∈ t ↔ a ∈ s ∧ a ∉ d) ∧ t.Sublist s ∧ t.Nodup) ∧
    merge (.list [.int 2, .int 3]) (.list [.int 1, .int 2])
      = .ok (.list [.int 1, .int 2, .int 3]) ∧
    (∀ (src : PyVal) (d : List PyVal), src.isList = false →
        merge src (.list d) = .ok (.list d)) := by
  refine ⟨fun s d => ?_, by decide, fun src d h => ?_⟩
  · obtain ⟨t, h1, h2, h3, h4⟩ := mergeList_spec s d
    exact ⟨t, by simp [merge, h1], h2, h3, h4⟩
  · cases src with
    | list xs => simp [PyVal.isList] at h
    | null => rfl
    | bool b => rfl
    | int n => rfl
    | str s => rfl
    | obj fs => rfl
    | other t => rfl

/-- Witness for C4 at concrete inputs. -/
theorem merge_list_behavior_witness :
    (∃ t : List PyVal,
        merge (.list [.int 2, .int 3]) (.list [.int 1, .int 2])
          = .ok (.list ([.int 1, .int 2] ++ t)) ∧
        (∀ a, a ∈ t ↔ a ∈ [PyVal.int 2, PyVal.int 3] ∧
            a ∉ [PyVal.int 1, PyVal.int 2]) ∧
        t.Sublist [PyVal.int 2, PyVal.int 3] ∧ t.Nodup) ∧
    merge .null (.list [.int 7]) = .ok (.list [.int 7]) :=
  ⟨merge_list_behavior.1 [.int 2, .int 3] [.int 1, .int 2],
   merge_list_behavior.2.2 .null [.int 7] (by decide)⟩

/-! ## The merge engine on dicts (claim C5) -/

theorem mergeObj_spec (s : List (String × PyVal)) :
    ∀ d r : PyDict, (dkeys s).Nodup → mergeObj s d = .ok r →
    ∀ k : String,
      (dlookup s k = none → dlookup r k = dlookup d k) ∧
      (∀ sv, dlookup s k = some sv → dlookup d k = none →
         dlookup r k = some sv) ∧
      (∀ sv dv, dlookup s k = some sv → dlookup d k = some dv →
         ∃ mv, merge sv dv = .ok mv ∧ dlookup r k = some mv) := by
  induction s with
  | nil =>
    intro d r _ h k
    simp only [mergeObj, Except.ok.injEq] at h
    subst h
    exact ⟨fun _ => rfl, fun sv hsv => by simp [dlookup] at hsv,
      fun sv dv hsv => by simp [dlookup] at hsv⟩
  | cons p rest ih =>
    obtain ⟨k0, v0⟩ := p
    intro d r hn h k
    simp only [dkeys, List.map_cons, List.nodup_cons] at hn
    have hk0rest : dlookup rest k0 = none :=
      (dlookup_eq_none_iff rest k0).mpr hn.1
    rcases hd0 : dlookup d k0 with _ | dv
    · -- new key: dest[k0] = v0
      rw [mergeObj, hd0] at h
      have hchar := ih (dset d k0 v0) r hn.2 h
      by_cases hk : k = k0
      · subst hk
        refine ⟨fun hnone => by simp [dlookup] at hnone, ?_, ?_⟩
        · intro sv hsv _
          rw [dlookup, if_pos rfl, Option.some.injEq] at hsv
          subst hsv
          rw [(hchar k).1 hk0rest, dlookup_dset_self]
        · intro sv dv hsv hdv
          rw [hd0] at hdv
          exact Option.noConfusion hdv
      · have hks : dlookup ((k0, v0) :: rest) k = dlookup rest k := by
          rw [dlookup, if_neg (fun hh => hk hh.symm)]
        have hdd : dlookup (dset d k0 v0) k = dlookup d k :=
          dlookup_dset_of_ne d k0 k v0 (fun hh => hk hh.symm)
        refine ⟨fun hnone => ?_, fun sv hsv hdnone => ?_, fun sv dv hsv hdv => ?_⟩
        · rw [hks] at hnone
          rw [(hchar k).1 hnone, hdd]
        · rw [hks] at hsv
          exact (hchar k).2.1 sv hsv (hdd.trans hdnone)
        · rw [hks] at hsv
          exact (hchar k).2.2 sv dv hsv (hdd.trans hdv)
    · -- shared key: dest[k0] = merge(v0, dv)
      rw [mergeObj, hd0] at h
      dsimp only at h
      rcases hm : merge v0 dv with e | m
      · rw [hm] at h
        exact Except.noConfusion h
      rw [hm] at h
      dsimp only at h
      have hchar := ih (dset d k0 m) r hn.2 h
      by_cases hk : k = k0
      · subst hk
        refine ⟨fun hnone => by simp [dlookup] at hnone, ?_, ?_⟩
        · intro sv hsv hdnone
          rw [hd0] at hdnone
          exact Option.noConfusion hdnone
        · intro sv dv2 hsv hdv
          rw [dlookup, if_pos rfl, Option.some.injEq] at hsv
          rw [hd0, Option.some.injEq] at hdv
          subst hsv; subst hdv
          exact ⟨m, hm, by rw [(hchar k).1 hk0rest, dlookup_dset_self]⟩
      · have hks : dlookup ((k0, v0) :: rest) k = dlookup rest k := by
          rw [dlookup, if_neg (fun hh => hk hh.symm)]
        have hdd : dlookup (dset d k0 m) k = dlookup d k :=
          dlookup_dset_of_ne d k0 k m (fun hh => hk hh.symm)
        refine ⟨fun hnone => ?_, fun sv hsv hdnone => ?_, fun sv dv2 hsv hdv => ?_⟩
        · rw [hks] at hnone
          rw [(hchar k).1 hnone, hdd]
        · rw [hks] at hsv
          exact (hchar k).2.1 sv hsv (hdd.trans hdnone)
        · rw [hks] at hsv
          exact (hchar k).2.2 sv dv2 hsv (hdd.trans hdv)

/-- **C5.** Merging into a dict `dest`: a dict `src` inserts its new keys
and recursively merges the values at shared keys; a null `src` replaces
the whole dict by null; any other non-dict `src` leaves `dest`
unchanged; and the spec's example
`merge({"b":[2],"c":3}, {"a":1,"b":[1]}) = {"a":1,"b":[1,2],"c":3}`
holds. -/
theorem merge_dict_behavior :
    (∀ (s d r : PyDict), (dkeys s).Nodup →
        merge (.obj s) (.obj d) = .ok (.obj r) →
        ∀ k, (dlookup s k = none → dlookup r k = dlookup d k) ∧
          (∀ sv, dlookup s k = some sv → dlookup d k = none →
             dlookup r k = some sv) ∧
          (∀ sv dv, dlookup s k = some sv → dlookup d k = some dv →
             ∃ mv, merge sv dv = .ok mv ∧ dlookup r k = some mv)) ∧
    merge (.obj [("b", .list [.int 2]), ("c", .int 3)])
        (.obj [("a", .int 1), ("b", .list [.int 1])])
      = .ok (.obj [("a", .int 1), ("b", .list [.int 1, .int 2]), ("c", .int 3)]) ∧
    (∀ d : PyDict, merge .null (.obj d) = .ok .null) ∧
    (∀ (src : PyVal) (d : PyDict), src.isObj = false → src ≠ .null →
        merge src (.obj d) = .ok (.obj d)) := by
  refine ⟨fun s d r hn h => ?_, by decide, fun d => rfl, fun src d h hnull => ?_⟩
  · have hobj : mergeObj s d = .ok r := by
      rcases hm : mergeObj s d with e | r2
      · rw [merge, hm] at h
        exact Except.noConfusion h
      · rw [merge, hm] at h
        dsimp only at h
        obtain h2 := PyVal.obj.inj (Except.ok.inj h)
        rw [h2]
    exact mergeObj_spec s d r hn hobj
  · cases src with
    | obj fs => simp [PyVal.isObj] at h
    | null => exact absurd rfl hnull
    | bool b => rfl
    | int n => rfl
    | str s => rfl
    | list xs => rfl
    | other t => rfl

/-- Witness for C5 at concrete inputs. -/
theorem merge_dict_behavior_witness :
    (∀ k, (dlookup [("b", PyVal.list [.int 2]), ("c", PyVal.int 3)] k = none →
          dlookup [("a", PyVal.int 1), ("b", PyVal.list [.int 1, .int 2]),
            ("c", PyVal.int 3)] k
            = dlookup [("a", PyVal.int 1), ("b", PyVal.list [.int 1])] k) ∧
        (∀ sv, dlookup [("b", PyVal.list [.int 2]), ("c", PyVal.int 3)] k
            = some sv →
          dlookup [("a", PyVal.int 1), ("b", PyVal.list [.int 1])] k = none →
          dlookup [("a", PyVal.int 1), ("b", PyVal.list [.int 1, .int 2]),
            ("c", PyVal.int 3)] k = some sv) ∧
        (∀ sv dv, dlookup [("b", PyVal.list [.int 2]), ("c", PyVal.int 3)] k
            = some sv →
          dlookup [("a", PyVal.int 1), ("b", PyVal.list [.int 1])] k = some dv →
          ∃ mv, merge sv dv = .ok mv ∧
            dlookup [("a", PyVal.int 1), ("b", PyVal.list [.int 1, .int 2]),
              ("c", PyVal.int 3)] k = some mv)) ∧
    merge .null (.obj [("a", PyVal.int 1)]) = .ok .null ∧
    merge (.int 5) (.obj [("a", PyVal.int 1)])
      = .ok (.obj [("a", PyVal.int 1)]) :=
  ⟨merge_dict_behavior.1 [("b", .list [.int 2]), ("c", .int 3)]
      [("a", .int 1), ("b", .list [.int 1])]
      [("a", .int 1), ("b", .list [.int 1, .int 2]), ("c", .int 3)]
      (by decide) (by decide),
   merge_dict_behavior.2.2.1 [("a", .int 1)],
   merge_dict_behavior.2.2.2 (.int 5) [("a", .int 1)] (by decide) (by decide)⟩

/-! ## Idempotence of the merge engine (claim C9) -/

theorem mergeList_self_of_subset (s : List PyVal) :
    ∀ d, (∀ a ∈ s, a ∈ d) → mergeList s d = d := by
  induction s with
  | nil => intro d _; exact mergeList_nil d
  | cons a s ih =>
    intro d h
    rw [mergeList_cons, if_pos (h a (by simp))]
    exact ih d (fun b hb => h b (by simp [hb]))

theorem mergeObj_self (rest : List (String × PyVal)) :
    ∀ d : PyDict, (∀ p ∈ rest, merge p.2 p.2 = .ok p.2) →
    (∀ p ∈ rest, dlookup d p.1 = some p.2) → mergeObj rest d = .ok d := by
  induction rest with
  | nil => intro d _ _; rfl
  | cons p rest ih =>
    obtain ⟨k, v⟩ := p
    intro d hm hl
    have hdk : dlookup d k = some v := hl (k, v) (by simp)
    rw [mergeObj, hdk]
    dsimp only
    rw [hm (k, v) (by simp)]
    dsimp only
    rw [dset_self_of_dlookup hdk]
    exact ih d (fun q hq => hm q (by simp [hq])) (fun q hq => hl q (by simp [hq]))

/-- **C9.** The merge is idempotent on every supported value:
`merge(x, x) = x` for any null / boolean / number / string / list /
mapping, nested to arbitrary depth. -/
theorem merge_idem : ∀ x : PyVal, supported x → merge x x = .ok x
  | .null, _ => rfl
  | .bool _, _ => rfl
  | .int _, _ => rfl
  | .str _, _ => rfl
  | .other t, h => absurd h (by simp [supported])
  | .list xs, _ => by
    have : mergeList xs xs = xs := mergeList_self_of_subset xs xs (fun a ha => ha)
    simp [merge, this]
  | .obj fs, h => by
    have hs : (dkeys fs).Nodup ∧ ∀ p ∈ fs, supported p.2 := by
      simpa [supported, dkeys] using h
    have hself : mergeObj fs fs = .ok fs := by
      refine mergeObj_self fs fs (fun p hp => ?_) (fun p hp => ?_)
      · have hsz : sizeOf p.2 < 1 + sizeOf fs := PyVal.sizeOf_lt_of_mem_obj hp
        exact merge_idem p.2 (hs.2 p hp)
      · exact mem_dlookup_of_nodup hs.1 hp
    rw [merge, hself]
termination_by x => sizeOf x

/-- Witness for C9 at a concrete nested value. -/
theorem merge_idem_witness :
    supported (.obj [("a", .list [.int 1, .str "x"]),
        ("b", .obj [("c", .null), ("d", .bool true)])]) ∧
    merge (.obj [("a", .list [.int 1, .str "x"]),
          ("b", .obj [("c", .null), ("d", .bool true)])])
        (.obj [("a", .list [.int 1, .str "x"]),
          ("b", .obj [("c", .null), ("d", .bool true)])])
      = .ok (.obj [("a", .list [.int 1, .str "x"]),
          ("b", .obj [("c", .null), ("d", .bool true)])]) :=
  ⟨by simp [supported], merge_idem _ (by simp [supported])⟩

/-! ## Document merge (claims C2 and C8) -/

/-- **C2 (code bug).** The merge-document operation can never merge or
persist anything: its first locked block evaluates the unbound name `pd`
(the assignment `pd = json.loads(doc)` is commented out, line 213), so
every call raises `NameError` before any merge runs or any write
happens, and the store is left as it was. -/
theorem mergedocument_always_nameError (store : Store) (key : String)
    (doc : PyVal) :
    mergedocument store key doc = (store, .crash .nameError) := rfl

theorem dlookup_append {d1 : PyDict} (d2 : PyDict) {k : String}
    (h : dlookup d1 k = none) : dlookup (d1 ++ d2) k = dlookup d2 k := by
  induction d1 with
  | nil => rfl
  | cons p rest ih =>
    obtain ⟨b, w⟩ := p
    rw [dlookup] at h
    by_cases hb : b = k
    · rw [if_pos hb] at h
      exact Option.noConfusion h
    · rw [if_neg hb] at h
      rw [List.cons_append, dlookup, if_neg hb]
      exact ih h

/-- **C8.** When the recursive merge fails, the merge-document operation
aborts before any persistence write and the stored document is
untouched: true of `mergedocument` as written (which aborts with
`NameError` before its first write on every input), and true of its
second locked block in isolation (`mergedocumentIntended`), which runs
`InfoHandler.merge` to completion in memory and only persists a
returned result. -/
theorem mergedocument_failed_merge_aborts (store : Store) (key : String)
    (doc : PyVal) (e : MergeErr)
    (h : merge doc (getdocument store key) = .error e) :
    (mergedocument store key doc).1 = store ∧
    (∃ err, (mergedocument store key doc).2 = .crash err) ∧
    mergedocumentIntended store key doc = (store, .crash .mergeFailed) := by
  refine ⟨rfl, ⟨.nameError, rfl⟩, ?_⟩
  simp only [mergedocumentIntended, h]

/-- Witness for C8: a fragment whose merge into the stored document
fails on an unsupported value. -/
theorem mergedocument_failed_merge_aborts_witness :
    merge (.obj [("a", PyVal.int 1)])
        (getdocument [("k", PyVal.obj [("a", PyVal.other "tuple")])] "k")
      = .error .notImplemented ∧
    (mergedocument [("k", PyVal.obj [("a", PyVal.other "tuple")])] "k"
        (.obj [("a", PyVal.int 1)])).1
      = [("k", PyVal.obj [("a", PyVal.other "tuple")])] ∧
    (∃ err, (mergedocument [("k", PyVal.obj [("a", PyVal.other "tuple")])] "k"
        (.obj [("a", PyVal.int 1)])).2 = .crash err) ∧
    mergedocumentIntended [("k", PyVal.obj [("a", PyVal.other "tuple")])] "k"
        (.obj [("a", PyVal.int 1)])
      = ([("k", PyVal.obj [("a", PyVal.other "tuple")])], .crash .mergeFailed) :=
  ⟨by decide,
   mergedocument_failed_merge_aborts _ _ _ .notImplemented (by decide)⟩

/-! ## Entity creation (claim C3) -/

/-- **C3.** Creating an entity whose name is already present fails with
the `EntityExists` client error and leaves the store unchanged; creating
a fresh entity appends it to the document, and a second create with the
same name then fails `EntityExists` leaving the document exactly as
after the first create. -/
theorem storeentity_exists_behavior (store : Store) (key n : String)
    (d : PyDict) (e ev : PyVal) :
    (getdocument store key = .obj d → n ∈ dkeys d →
      storeentity store key n e = (store, .entityExists n)) ∧
    (getdocument store key = .obj d → n ∉ dkeys d →
      storeentity store key n (.obj [(n, ev)])
          = (storedocument store key (.obj (d ++ [(n, ev)])), .ok) ∧
        ∀ e2 : PyVal,
          storeentity (storedocument store key (.obj (d ++ [(n, ev)]))) key n e2
            = (storedocument store key (.obj (d ++ [(n, ev)])), .entityExists n)) := by
  constructor
  · intro hdoc hmem
    obtain ⟨v, hv⟩ := Option.isSome_iff_exists.mp
      ((dlookup_isSome_iff d n).mpr hmem)
    simp only [storeentity, hdoc, hv]
  · intro hdoc hnotmem
    have hnone : dlookup d n = none := (dlookup_eq_none_iff d n).mpr hnotmem
    have hmerge : merge (.obj [(n, ev)]) (.obj d)
        = .ok (.obj (d ++ [(n, ev)])) := by
      have : mergeObj [(n, ev)] d = .ok (d ++ [(n, ev)]) := by
        rw [mergeObj, hnone]
        dsimp only
        rw [mergeObj, dset_of_not_mem d n ev hnotmem]
      rw [merge, this]
    constructor
    · simp only [storeentity, hdoc, hnone, hmerge]
    · intro e2
      have hdoc2 : getdocument (storedocument store key
          (.obj (d ++ [(n, ev)]))) key = .obj (d ++ [(n, ev)]) :=
        getdocument_storedocument_self store key _
      have hfound : dlookup (d ++ [(n, ev)]) n = some ev := by
        rw [dlookup_append [(n, ev)] hnone, dlookup, if_pos rfl]
      simp only [storeentity, hdoc2, hfound]

/-- Witness for C3: a concrete create-create sequence. -/
theorem storeentity_exists_behavior_witness :
    (getdocument [] "users" = .obj [] ∧ "alice" ∉ dkeys ([] : PyDict)) ∧
    (storeentity [] "users" "alice" (.obj [("alice", .obj [("x", .int 1)])])
        = (storedocument [] "users"
            (.obj [("alice", PyVal.obj [("x", PyVal.int 1)])]), .ok) ∧
      ∀ e2 : PyVal,
        storeentity (storedocument [] "users"
            (.obj [("alice", PyVal.obj [("x", PyVal.int 1)])])) "users" "alice" e2
          = (storedocument [] "users"
              (.obj [("alice", PyVal.obj [("x", PyVal.int 1)])]),
             .entityExists "alice")) :=
  ⟨⟨by decide, by decide⟩,
   (storeentity_exists_behavior [] "users" "alice" []
      .null (.obj [("x", .int 1)])).2 (by decide) (by decide)⟩

/-! ## Entity update (claims C6, C7, C10) -/

theorem entitymerge_spec (ns : List (String × PyVal)) :
    ∀ ent : PyDict, (dkeys ns).Nodup →
    ∃ ent2 : PyDict, entitymerge ns (.obj ent) = .ok (.obj ent2) ∧
      ∀ a : String,
        (a ∈ dkeys ns → dlookup ent2 a = dlookup ns a) ∧
        (a ∉ dkeys ns → dlookup ent2 a = dlookup ent a) := by
  induction ns with
  | nil =>
    intro ent _
    exact ⟨ent, rfl, fun a => ⟨fun ha => by simp [dkeys] at ha, fun _ => rfl⟩⟩
  | cons p rest ih =>
    obtain ⟨a0, v0⟩ := p
    intro ent hn
    simp only [dkeys, List.map_cons, List.nodup_cons] at hn
    obtain ⟨ent2, h1, h2⟩ := ih (dset ent a0 v0) hn.2
    refine ⟨ent2, ?_, fun a => ⟨?_, ?_⟩⟩
    · rw [entitymerge]
      exact h1
    · intro ha
      by_cases haa : a = a0
      · rw [haa]
        have hfst : dlookup ((a0, v0) :: rest) a0 = some v0 := by
          rw [dlookup, if_pos rfl]
        rw [hfst, (h2 a0).2 hn.1, dlookup_dset_self]
      · have hmem : a ∈ dkeys rest := by
          simp only [dkeys, List.map_cons, List.mem_cons] at ha
          rcases ha with h3 | h3
          · exact absurd h3 haa
          · exact h3
        rw [(h2 a).1 hmem, dlookup, if_neg (fun hh => haa hh.symm)]
    · intro ha
      simp only [dkeys, List.map_cons, List.mem_cons, not_or] at ha
      rw [(h2 a).2 (by simpa [dkeys] using ha.2),
        dlookup_dset_of_ne ent a0 a v0 (fun hh => ha.1 hh.symm)]

/-- **C6.** Updating an existing entity replaces exactly the attributes
named in the fragment (shallow, attribute-level replacement), leaves
every other attribute unchanged, and persists the updated document.  The
inbound fragment is indexed by the entity name, as the handler requires
(`entitydict[entityname]`). -/
theorem mergeentity_update_behavior (store : Store) (key name : String)
    (d fr ent nent : PyDict)
    (hdoc : getdocument store key = .obj d)
    (hent : dlookup d name = some (.obj ent))
    (hfrag : dlookup fr name = some (.obj nent))
    (hn : (dkeys nent).Nodup) :
    ∃ ent2 : PyDict, entitymerge nent (.obj ent) = .ok (.obj ent2) ∧
      mergeentity store key name (.obj fr)
        = (storedocument store key (.obj (dset d name (.obj ent2))), .ok) ∧
      (∀ a, a ∈ dkeys nent → dlookup ent2 a = dlookup nent a) ∧
      (∀ a, a ∉ dkeys nent → dlookup ent2 a = dlookup ent a) := by
  obtain ⟨ent2, h1, h2⟩ := entitymerge_spec nent ent hn
  refine ⟨ent2, h1, ?_, fun a => (h2 a).1, fun a => (h2 a).2⟩
  simp only [mergeentity, hdoc, hent, hfrag, h1]

/-- Witness for C6: updating one attribute of a two-attribute entity. -/
theorem mergeentity_update_behavior_witness :
    (getdocument [("users", PyVal.obj [("SPT",
        PyVal.obj [("name", PyVal.str "SPT"), ("allocations", PyVal.list [])])])]
        "users"
      = .obj [("SPT", PyVal.obj [("name", PyVal.str "SPT"),
          ("allocations", PyVal.list [])])]) ∧
    (∃ ent2 : PyDict,
      entitymerge [("allocations", PyVal.list [PyVal.str "lincolnb"])]
          (.obj [("name", PyVal.str "SPT"), ("allocations", PyVal.list [])])
        = .ok (.obj ent2) ∧
      mergeentity [("users", PyVal.obj [("SPT",
          PyVal.obj [("name", PyVal.str "SPT"), ("allocations", PyVal.list [])])])]
          "users" "SPT"
          (.obj [("SPT", PyVal.obj [("allocations",
            PyVal.list [PyVal.str "lincolnb"])])])
        = (storedocument [("users", PyVal.obj [("SPT",
            PyVal.obj [("name", PyVal.str "SPT"), ("allocations", PyVal.list [])])])]
            "users"
            (.obj (dset [("SPT", PyVal.obj [("name", PyVal.str "SPT"),
              ("allocations", PyVal.list [])])] "SPT" (.obj ent2))), .ok) ∧
      (∀ a, a ∈ dkeys [("allocations", PyVal.list [PyVal.str "lincolnb"])] →
        dlookup ent2 a
          = dlookup [("allocations", PyVal.list [PyVal.str "lincolnb"])] a) ∧
      (∀ a, a ∉ dkeys [("allocations", PyVal.list [PyVal.str "lincolnb"])] →
        dlookup ent2 a
          = dlookup [("name", PyVal.str "SPT"), ("allocations", PyVal.list [])] a)) :=
  ⟨by decide,
   mergeentity_update_behavior
     [("users", PyVal.obj [("SPT", PyVal.obj [("name", PyVal.str "SPT"),
        ("allocations", PyVal.list [])])])]
     "users" "SPT"
     [("SPT", PyVal.obj [("name", PyVal.str "SPT"),
        ("allocations", PyVal.list [])])]
     [("SPT", PyVal.obj [("allocations", PyVal.list [PyVal.str "lincolnb"])])]
     [("name", PyVal.str "SPT"), ("allocations", PyVal.list [])]
     [("allocations", PyVal.list [PyVal.str "lincolnb"])]
     (by decide) (by decide) (by decide) (by decide)⟩

/-- **C7.** Updating, reading or deleting an entity absent from the
document fails with the `EntityMissing` client error and leaves the
store unchanged. -/
theorem entity_missing_behavior (store : Store) (key name : String)
    (d : PyDict) (e : PyVal)
    (hdoc : getdocument store key = .obj d)
    (habs : dlookup d name = none) :
    mergeentity store key name e = (store, .entityMissing name) ∧
    getentity store key name = (store, .entityMissing name) ∧
    deleteentity store key name = (store, .entityMissing name) := by
  refine ⟨?_, ?_, ?_⟩
  · simp only [mergeentity, hdoc, habs]
  · simp only [getentity, hdoc, habs]
  · simp only [deleteentity, hdoc, habs]

/-- Witness for C7 on a store with a document lacking the entity. -/
theorem entity_missing_behavior_witness :
    (getdocument [("users", PyVal.obj [("bob", PyVal.obj [])])] "users"
        = .obj [("bob", PyVal.obj [])] ∧
      dlookup [("bob", PyVal.obj [])] "alice" = none) ∧
    (mergeentity [("users", PyVal.obj [("bob", PyVal.obj [])])] "users" "alice"
        (.obj [("alice", .obj [])])
      = ([("users", PyVal.obj [("bob", PyVal.obj [])])], .entityMissing "alice") ∧
    getentity [("users", PyVal.obj [("bob", PyVal.obj [])])] "users" "alice"
      = ([("users", PyVal.obj [("bob", PyVal.obj [])])], .entityMissing "alice") ∧
    deleteentity [("users", PyVal.obj [("bob", PyVal.obj [])])] "users" "alice"
      = ([("users", PyVal.obj [("bob", PyVal.obj [])])], .entityMissing "alice")) :=
  ⟨⟨by decide, by decide⟩,
   entity_missing_behavior [("users", PyVal.obj [("bob", PyVal.obj [])])]
     "users" "alice" [("bob", PyVal.obj [])] (.obj [("alice", .obj [])])
     (by decide) (by decide)⟩

/-- **C10.** The update handler requires the inbound fragment to be
indexed by the entity name: if the target entity exists but the
fragment has no outer binding for the name, the `KeyError` from
`entitydict[entityname]` is answered with the same 405 `EntityMissing`
client error, and the store is unchanged. -/
theorem mergeentity_unindexed_fragment (store : Store) (key name : String)
    (d fr : PyDict) (ex : PyVal)
    (hdoc : getdocument store key = .obj d)
    (hpresent : dlookup d name = some ex)
    (hfr : dlookup fr name = none) :
    mergeentity store key name (.obj fr) = (store, .entityMissing name) := by
  simp only [mergeentity, hdoc, hpresent, hfr]

/-- Witness for C10: the entity exists, the fragment is a bare attribute
dict not indexed by the name. -/
theorem mergeentity_unindexed_fragment_witness :
    (getdocument [("users", PyVal.obj [("SPT", PyVal.obj [("name",
        PyVal.str "SPT")])])] "users"
      = .obj [("SPT", PyVal.obj [("name", PyVal.str "SPT")])] ∧
    dlookup [("SPT", PyVal.obj [("name", PyVal.str "SPT")])] "SPT"
      = some (.obj [("name", PyVal.str "SPT")]) ∧
    dlookup [("allocations", PyVal.list [])] "SPT" = none) ∧
    mergeentity [("users", PyVal.obj [("SPT", PyVal.obj [("name",
        PyVal.str "SPT")])])] "users" "SPT" (.obj [("allocations", PyVal.list [])])
      = ([("users", PyVal.obj [("SPT", PyVal.obj [("name", PyVal.str "SPT")])])],
         .entityMissing "SPT") :=
  ⟨⟨by decide, by decide, by decide⟩,
   mergeentity_unindexed_fragment
     [("users", PyVal.obj [("SPT", PyVal.obj [("name", PyVal.str "SPT")])])]
     "users" "SPT"
     [("SPT", PyVal.obj [("name", PyVal.str "SPT")])]
     [("allocations", PyVal.list [])]
     (.obj [("name", PyVal.str "SPT")]) (by decide) (by decide) (by decide)⟩

/-! ## Pairing consumption (claim C1) -/

theorem mem_of_mem_derase {d : PyDict} {k : String} {x : String × PyVal} :
    x ∈ derase d k → x ∈ d := by
  induction d with
  | nil => intro h; simpa [derase] using h
  | cons p rest ih =>
    obtain ⟨b, w⟩ := p
    intro h
    by_cases hb : b = k
    · rw [derase, if_pos hb] at h
      exact List.mem_cons_of_mem _ h
    · rw [derase, if_neg hb] at h
      rcases List.mem_cons.mp h with h1 | h1
      · exact h1 ▸ List.mem_cons_self _ _
      · exact List.mem_cons_of_mem _ (ih h1)

/-- If every entry reachable from the key list either carries a
pairing code different from `code` or a null `cert`, the scan loop walks
the whole list without storing anything and leaves `prd` as given. -/
theorem getpairingScan_nomatch (key code : String) (pdFields : PyDict) :
    ∀ (ps : List String) (store : Store) (d : PyDict) (prd : Option PyVal),
    (∀ q ∈ ps, ∃ ef, dlookup d q = some (.obj ef) ∧
        ∃ pc, dlookup ef "pairingcode" = some pc ∧
          (pc = .str code → dlookup ef "cert" = some .null)) →
    getpairingScan key code pdFields ps store d prd = (store, .ok prd) := by
  intro ps
  induction ps with
  | nil => intro store d prd _; rfl
  | cons p ps ih =>
    intro store d prd hcov
    obtain ⟨ef, hlook, pc, hpc, himp⟩ := hcov p (by simp)
    rw [getpairingScan, hlook]
    dsimp only
    rw [hpc]
    dsimp only
    by_cases heq : pc = PyVal.str code
    · rw [if_pos heq, himp heq]
      dsimp only
      rw [if_pos rfl]
      exact ih store d prd (fun q hq => hcov q (by simp [hq]))
    · rw [if_neg heq]
      exact ih store d prd (fun q hq => hcov q (by simp [hq]))

/-- If exactly one reachable entry carries `code` and its `cert` is
non-null, the scan loop snapshots that entry, pops it, re-stores the
document once, and finishes with the snapshot, regardless of the
incoming `prd`. -/
theorem getpairingScan_unique_match (key code : String) (pdFields : PyDict) :
    ∀ (ps : List String) (store : Store) (d : PyDict) (prd : Option PyVal)
      (p : String) (efp : PyDict) (c : PyVal),
    ps.Nodup →
    (∀ q ∈ ps, ∃ ef, dlookup d q = some (.obj ef) ∧
        "pairingcode" ∈ dkeys ef ∧ "cert" ∈ dkeys ef) →
    p ∈ ps →
    dlookup d p = some (.obj efp) →
    dlookup efp "pairingcode" = some (.str code) →
    dlookup efp "cert" = some c → c ≠ .null →
    (∀ q ∈ ps, ∀ qf, dlookup d q = some (.obj qf) →
        dlookup qf "pairingcode" = some (.str code) → q = p) →
    getpairingScan key code pdFields ps store d prd
      = (storedocument store key
          (.obj (dset pdFields key (.obj (derase d p)))),
         .ok (some (.obj efp))) := by
  intro ps
  induction ps with
  | nil => intro store d prd p efp c _ _ hp; simp at hp
  | cons q ps ih =>
    intro store d prd p efp c hnd hcov hp hlookp hcode hcert hc uniq
    obtain ⟨efq, hlookq, hpcq_mem, _⟩ := hcov q (by simp)
    obtain ⟨pcq, hpcq⟩ := Option.isSome_iff_exists.mp
      ((dlookup_isSome_iff efq "pairingcode").mpr hpcq_mem)
    rw [List.nodup_cons] at hnd
    by_cases hqp : q = p
    · -- the head is the unique match
      subst hqp
      have hef : efq = efp := by
        rw [hlookq] at hlookp
        exact PyVal.obj.inj (Option.some.inj hlookp)
      subst hef
      rw [getpairingScan, hlookq]
      dsimp only
      rw [hcode]
      dsimp only
      rw [if_pos rfl, hcert]
      dsimp only
      rw [if_neg hc]
      -- the remaining keys can no longer match
      refine getpairingScan_nomatch key code pdFields ps _ _ _ (fun r hr => ?_)
      have hrq : r ≠ q := fun hh => hnd.1 (hh ▸ hr)
      obtain ⟨efr, hlookr, hpcr_mem, _⟩ := hcov r (by simp [hr])
      obtain ⟨pcr, hpcr⟩ := Option.isSome_iff_exists.mp
        ((dlookup_isSome_iff efr "pairingcode").mpr hpcr_mem)
      refine ⟨efr, ?_, pcr, hpcr, fun heq => ?_⟩
      · rw [dlookup_derase_of_ne d q r (fun hh => hrq hh.symm)]
        exact hlookr
      · exact absurd (uniq r (by simp [hr]) efr hlookr (heq ▸ hpcr)) hrq
    · -- the head is not the match: its code differs
      have hpcq_ne : pcq ≠ PyVal.str code := fun heq =>
        hqp (uniq q (by simp) efq hlookq (heq ▸ hpcq))
      rw [getpairingScan, hlookq]
      dsimp only
      rw [hpcq]
      dsimp only
      rw [if_neg hpcq_ne]
      have hpps : p ∈ ps := by
        rcases List.mem_cons.mp hp with h1 | h1
        · exact absurd h1.symm hqp
        · exact h1
      exact ih store d prd p efp c hnd.2
        (fun r hr => hcov r (by simp [hr])) hpps hlookp hcode hcert hc
        (fun r hr qf h1 h2 => uniq r (by simp [hr]) qf h1 h2)

theorem scan_cov_of_wf {entries : PyDict}
    (hwf : ∀ q ∈ entries, ∃ ef, q.2 = PyVal.obj ef ∧
        "pairingcode" ∈ dkeys ef ∧ "cert" ∈ dkeys ef) :
    ∀ q ∈ dkeys entries, ∃ ef, dlookup entries q = some (.obj ef) ∧
      "pairingcode" ∈ dkeys ef ∧ "cert" ∈ dkeys ef := by
  intro q hq
  obtain ⟨v, hv⟩ := Option.isSome_iff_exists.mp
    ((dlookup_isSome_iff entries q).mpr hq)
  obtain ⟨ef, hef, h1, h2⟩ := hwf (q, v) (dlookup_mem hv)
  exact ⟨ef, by rw [hv]; exact congrArg some hef, h1, h2⟩

/-- The exactly-once property of spec §4.5, proved of the *intended*
pairing logic (`getpairingIntended`, the scan of lines 429-453 that the
program as written never reaches — see `getpairing` and claim C1).  For
a pairing document whose entry collection (the sub-mapping `pd[key]`)
is made of well-formed pairing entries: if exactly one entry carries
the requested code and its `cert` is non-null, the scan returns that
entry and removes it from the stored document in the same operation,
and an immediately following call with the same code answers the 404
retry message; if no entry carries the code, or the matching entry's
`cert` is null, the call answers the 404 retry message and the store is
unchanged. -/
theorem getpairingIntended_exactly_once (store : Store) (key code : String)
    (pdFields entries : PyDict)
    (hdoc : getdocument store key = .obj pdFields)
    (hsub : dlookup pdFields key = some (.obj entries))
    (hnk : (dkeys entries).Nodup)
    (hwf : ∀ q ∈ entries, ∃ ef, q.2 = PyVal.obj ef ∧
        "pairingcode" ∈ dkeys ef ∧ "cert" ∈ dkeys ef) :
    (∀ (p : String) (efp : PyDict) (c : PyVal),
       (p, PyVal.obj efp) ∈ entries →
       dlookup efp "pairingcode" = some (.str code) →
       dlookup efp "cert" = some c → c ≠ .null →
       (∀ q ∈ entries, ∀ qf : PyDict, q.2 = PyVal.obj qf →
          dlookup qf "pairingcode" = some (.str code) → q.1 = p) →
       getpairingIntended store key code
         = (storedocument store key
             (.obj (dset pdFields key (.obj (derase entries p)))),
            .retval (.obj efp)) ∧
       getpairingIntended (storedocument store key
             (.obj (dset pdFields key (.obj (derase entries p))))) key code
         = (storedocument store key
             (.obj (dset pdFields key (.obj (derase entries p)))),
            .notready)) ∧
    ((∀ q ∈ entries, ∀ qf : PyDict, q.2 = PyVal.obj qf →
        dlookup qf "pairingcode" ≠ some (.str code)) →
      getpairingIntended store key code = (store, .notready)) ∧
    (∀ (p : String) (efp : PyDict),
       (p, PyVal.obj efp) ∈ entries →
       dlookup efp "pairingcode" = some (.str code) →
       dlookup efp "cert" = some .null →
       (∀ q ∈ entries, ∀ qf : PyDict, q.2 = PyVal.obj qf →
          dlookup qf "pairingcode" = some (.str code) → q.1 = p) →
       getpairingIntended store key code = (store, .notready)) := by
  have hcov := scan_cov_of_wf hwf
  refine ⟨fun p efp c hpin hcode hcert hc uniq => ?_,
    fun hnomatch => ?_, fun p efp hpin hcode hcert uniq => ?_⟩
  · -- unique live match: consumed on the first call
    have hplook : dlookup entries p = some (.obj efp) :=
      mem_dlookup_of_nodup hnk hpin
    have hpmem : p ∈ dkeys entries :=
      List.mem_map.mpr ⟨(p, PyVal.obj efp), hpin, rfl⟩
    have uniqs : ∀ q ∈ dkeys entries, ∀ qf : PyDict,
        dlookup entries q = some (.obj qf) →
        dlookup qf "pairingcode" = some (.str code) → q = p := by
      intro q _ qf h1 h2
      exact uniq (q, PyVal.obj qf) (dlookup_mem h1) qf rfl h2
    have hscan := getpairingScan_unique_match key code pdFields
      (dkeys entries) store entries none p efp c hnk hcov hpmem hplook
      hcode hcert hc uniqs
    constructor
    · rw [getpairingIntended, hdoc]
      dsimp only
      rw [hsub]
      dsimp only
      rw [hscan]
    · -- second call: the consumed entry is gone, nothing matches
      rw [getpairingIntended, getdocument_storedocument_self]
      dsimp only
      rw [dlookup_dset_self]
      dsimp only
      have hscan2 := getpairingScan_nomatch key code
        (dset pdFields key (.obj (derase entries p)))
        (dkeys (derase entries p))
        (storedocument store key
          (.obj (dset pdFields key (.obj (derase entries p)))))
        (derase entries p) none (fun r hr => ?_)
      · rw [hscan2]
      · obtain ⟨v, hv⟩ := Option.isSome_iff_exists.mp
          ((dlookup_isSome_iff (derase entries p) r).mpr hr)
        obtain ⟨ef, hef, h1, _⟩ :=
          hwf (r, v) (mem_of_mem_derase (dlookup_mem hv))
        obtain ⟨pc, hpc⟩ := Option.isSome_iff_exists.mp
          ((dlookup_isSome_iff ef "pairingcode").mpr h1)
        refine ⟨ef, by rw [hv]; exact congrArg some hef, pc, hpc,
          fun heq => ?_⟩
        have hrp : r = p := uniq (r, v)
          (mem_of_mem_derase (dlookup_mem hv)) ef hef (heq ▸ hpc)
        exact absurd (hrp ▸ hr) (not_mem_dkeys_derase hnk)
  · -- no entry carries the code at all
    rw [getpairingIntended, hdoc]
    dsimp only
    rw [hsub]
    dsimp only
    have hscan := getpairingScan_nomatch key code pdFields
      (dkeys entries) store entries none (fun r hr => ?_)
    · rw [hscan]
    · obtain ⟨ef, hlook, h1, _⟩ := hcov r hr
      obtain ⟨pc, hpc⟩ := Option.isSome_iff_exists.mp
        ((dlookup_isSome_iff ef "pairingcode").mpr h1)
      exact ⟨ef, hlook, pc, hpc, fun heq =>
        absurd (heq ▸ hpc)
          (hnomatch (r, PyVal.obj ef) (dlookup_mem hlook) ef rfl)⟩
  · -- the unique match exists but its cert is still null
    rw [getpairingIntended, hdoc]
    dsimp only
    rw [hsub]
    dsimp only
    have hplook : dlookup entries p = some (.obj efp) :=
      mem_dlookup_of_nodup hnk hpin
    have hscan := getpairingScan_nomatch key code pdFields
      (dkeys entries) store entries none (fun r hr => ?_)
    · rw [hscan]
    · obtain ⟨ef, hlook, h1, _⟩ := hcov r hr
      obtain ⟨pc, hpc⟩ := Option.isSome_iff_exists.mp
        ((dlookup_isSome_iff ef "pairingcode").mpr h1)
      refine ⟨ef, hlook, pc, hpc, fun heq => ?_⟩
      have hrp : r = p :=
        uniq (r, PyVal.obj ef) (dlookup_mem hlook) ef rfl (heq ▸ hpc)
      subst hrp
      have hef : ef = efp := by
        rw [hlook] at hplook
        exact PyVal.obj.inj (Option.some.inj hplook)
      subst hef
      exact hcert

/-- The intended exactly-once behavior at the spec's own scenario — a
single entry with `pairingcode="X123"` and `cert="ABC"`.  The first
call returns the entry and removes it from the stored document; the
immediate second call with the same code answers the retry message. -/
theorem getpairingIntended_exactly_once_witness :
    getpairingIntended [("pairing", PyVal.obj [("pairing", PyVal.obj [("req1",
        PyVal.obj [("pairingcode", PyVal.str "X123"),
          ("cert", PyVal.str "ABC")])])])] "pairing" "X123"
      = ([("pairing", PyVal.obj [("pairing", PyVal.obj [])])],
         .retval (.obj [("pairingcode", PyVal.str "X123"),
           ("cert", PyVal.str "ABC")])) ∧
    getpairingIntended [("pairing", PyVal.obj [("pairing", PyVal.obj [])])]
        "pairing" "X123"
      = ([("pairing", PyVal.obj [("pairing", PyVal.obj [])])], .notready) :=
  (getpairingIntended_exactly_once
    [("pairing", PyVal.obj [("pairing", PyVal.obj [("req1",
        PyVal.obj [("pairingcode", PyVal.str "X123"),
          ("cert", PyVal.str "ABC")])])])]
    "pairing" "X123"
    [("pairing", PyVal.obj [("req1", PyVal.obj [("pairingcode",
        PyVal.str "X123"), ("cert", PyVal.str "ABC")])])]
    [("req1", PyVal.obj [("pairingcode", PyVal.str "X123"),
        ("cert", PyVal.str "ABC")])]
    (by decide) (by decide) (by decide)
    (fun q hq => by
      simp only [List.mem_singleton] at hq
      subst hq
      exact ⟨[("pairingcode", PyVal.str "X123"), ("cert", PyVal.str "ABC")],
        rfl, by decide, by decide⟩)).1
    "req1" [("pairingcode", PyVal.str "X123"), ("cert", PyVal.str "ABC")]
    (.str "ABC") (by decide) (by decide) (by decide) (by decide)
    (fun q hq _qf _h1 _h2 => by
      simp only [List.mem_singleton] at hq
      subst hq
      rfl)

/-- **C1 (code bug).** The pairing operation can never deliver a
pairing: `getpairing` begins by calling `self._getpythondocument(key)`,
a method that exists only as comments in the source, so every call —
in particular one for a document holding an entry with the requested
code and a non-null cert — raises `AttributeError` before the pairing
document is even read, and the store is unchanged.  The exactly-once
scan-and-consume behavior the claim describes (which does hold of the
unreachable scan logic: `getpairingIntended_exactly_once`) never
executes. -/
theorem getpairing_always_attributeError (store : Store)
    (key pairingcode : String) :
    getpairing store key pairingcode = (store, .crash .attributeError) := rfl
